import Mathlib

/-!
Shallow embedding of the RPKI manifest (MFT) subsystem of rpki-client
(`usr.sbin/rpki-client/mft.c`): decoding of RFC 6486 manifest eContent,
time-window classification, per-file digest verification and the
inter-process serialization codec, together with proofs of the documented
properties.

Byte strings (C `char *` / `unsigned char *` buffers) are modelled as
`List Nat`; ASN.1 values delivered by OpenSSL's `d2i_ASN1_SEQUENCE_ANY`
are modelled as a closed inductive of the tags this code inspects;
calendar times (`struct tm` obtained from `ASN1_time_parse`) are modelled
as integers under the total order that `ASN1_time_tm_cmp` computes, with
`none` standing for a generalized-time string that fails to parse.
-/

namespace Mft

/-- A byte string (C buffer). -/
abbrev Bytes := List Nat

/-- One `struct mftfile`: a filename and its SHA256 hash (32 bytes). -/
structure MftFile where
  file : Bytes
  hash : Bytes
  deriving Repr, DecidableEq

/-- The parsed `struct mft`.  `seqnum` is `none` when the field was never
set (as after `mft_read`, which does not transfer it). -/
structure Manifest where
  stale : Bool
  file : Bytes
  files : List MftFile
  seqnum : Option String
  aia : Bytes
  aki : Bytes
  ski : Bytes
  deriving Repr, DecidableEq

/-- The ASN.1 values this parser inspects, one constructor per tag that
`mft.c` distinguishes (`ASN1_TYPE` values out of `d2i_ASN1_SEQUENCE_ANY`).
A GENERALIZEDTIME carries `some t` when `ASN1_time_parse` accepts its
string and yields calendar time `t`, `none` when parsing fails.
`other` stands for any remaining tag. -/
inductive ASN1 where
  | int (v : Int)
  | gtime (t : Option Int)
  | bitstr (b : Bytes)
  | ia5 (s : Bytes)
  | oid (nid : Nat)
  | seqOf (elems : List ASN1)
  | other (tag : Nat)
  deriving Repr

/-- OpenSSL's numeric identifier for SHA256 (`NID_sha256`). -/
def NID_sha256 : Nat := 672

/-- `check_validity` (mft.c:84-122): classify the manifest time window
against the current time.  Returns 1 if valid, 0 if stale, -1 otherwise.
`tFrom`/`tUntil` are the parse results of the two GENERALIZEDTIME fields
(`generalizedtime_to_tm`); `ASN1_time_tm_cmp` is the order on `Int`. -/
def check_validity (tFrom tUntil : Option Int) (now : Int) : Int :=
  match tFrom with
  | none => -1
  | some f =>
    match tUntil with
    | none => -1
    | some u =>
      if u < f then -1
      else if now < f then -1
      else if u < now then 0
      else 1

/-- The C string a `strndup` of these bytes denotes: everything before the
first NUL byte. -/
def cstr (l : Bytes) : Bytes := l.takeWhile (fun b => b ≠ 0)

/-- `mft_parse_filehash` (mft.c:128-210): parse one FileAndHash.  The inner
octet string has already been re-parsed into its element list; the C code
requires exactly 2 elements, an IA5 filename with no `/` (byte 47) and
length > 4, and a BIT STRING hash of exactly `SHA256_DIGEST_LENGTH` (32)
bytes. -/
def mft_parse_filehash (elems : List ASN1) : Option MftFile :=
  match elems with
  | [file, hash] =>
    match file with
    | .ia5 s =>
      let fn := cstr s
      if 47 ∈ fn then none
      else if fn.length ≤ 4 then none
      else
        match hash with
        | .bitstr hb => if hb.length = 32 then some ⟨fn, hb⟩ else none
        | _ => none
    | _ => none
  | _ => none

/-- `mft_parse_flist` (mft.c:216-250): parse the FileAndHash sequence.
Each element must itself be an ASN.1 SEQUENCE; any element failure aborts
the whole list.  Order is preserved (the C code appends into
`p->res->files` in iteration order). -/
def mft_parse_flist (elems : List ASN1) : Option (List MftFile) :=
  match elems with
  | [] => some []
  | t :: rest =>
    match t with
    | .seqOf inner =>
      match mft_parse_filehash inner with
      | none => none
      | some fent => (mft_parse_flist rest).map (fun fs => fent :: fs)
    | _ => none

/-- Big-endian byte representation with explicit fuel, so that the
recursion is structural and computable by the kernel. -/
def bn_bytesAux : Nat → Nat → Bytes
  | _, 0 => []
  | 0, _ + 1 => []
  | fuel + 1, n + 1 => bn_bytesAux fuel ((n + 1) / 256) ++ [(n + 1) % 256]

/-- The big-endian byte representation of a natural number (no leading
zero octet; empty for zero), as `BN_bn2hex` walks it.  The fuel argument
of `bn_bytesAux` keeps the recursion structural; it never runs out since
the value never exceeds it. -/
def bn_bytes (n : Nat) : Bytes := bn_bytesAux n n

/-- `BN_num_bytes`: number of octets in the magnitude's big-endian
representation (0 for zero). -/
def bn_num_bytes (n : Nat) : Nat := (bn_bytes n).length

/-- The fuel of `bn_bytesAux` is irrelevant while it dominates the
value. -/
theorem bn_bytesAux_fuel {fuel fuel' n : Nat} (h : n ≤ fuel)
    (h' : n ≤ fuel') : bn_bytesAux fuel n = bn_bytesAux fuel' n := by
  induction fuel generalizing fuel' n with
  | zero =>
    have hn : n = 0 := by omega
    subst hn
    cases fuel' <;> rfl
  | succ f ih =>
    cases n with
    | zero => cases fuel' <;> rfl
    | succ m =>
      cases fuel' with
      | zero => omega
      | succ f' =>
        have hd : (m + 1) / 256 < m + 1 :=
          Nat.div_lt_self (Nat.succ_pos m) (by norm_num)
        show bn_bytesAux f ((m + 1) / 256) ++ _
            = bn_bytesAux f' ((m + 1) / 256) ++ _
        rw [ih (show (m + 1) / 256 ≤ f by omega)
            (show (m + 1) / 256 ≤ f' by omega)]

/-- The recursion equation of `bn_bytes` on a positive value. -/
theorem bn_bytes_succ (n : Nat) :
    bn_bytes (n + 1) = bn_bytes ((n + 1) / 256) ++ [(n + 1) % 256] := by
  have hd : (n + 1) / 256 < n + 1 :=
    Nat.div_lt_self (Nat.succ_pos n) (by norm_num)
  show bn_bytesAux (n + 1) (n + 1)
      = bn_bytesAux ((n + 1) / 256) ((n + 1) / 256) ++ [(n + 1) % 256]
  rw [show bn_bytesAux (n + 1) (n + 1)
      = bn_bytesAux n ((n + 1) / 256) ++ [(n + 1) % 256] from rfl]
  rw [bn_bytesAux_fuel (by omega) (le_refl ((n + 1) / 256))]

/-- The recursion equation of `BN_num_bytes` on a positive value. -/
theorem bn_num_bytes_succ (n : Nat) :
    bn_num_bytes (n + 1) = bn_num_bytes ((n + 1) / 256) + 1 := by
  simp [bn_num_bytes, bn_bytes_succ]

/-- The uppercase hexadecimal digit character for `k < 16`. -/
def hexDig (k : Nat) : Char := "0123456789ABCDEF".data.getD k '0'

/-- Two hex digits of one octet, as `BN_bn2hex` prints each byte. -/
def byteHex (b : Nat) : List Char := [hexDig (b / 16), hexDig (b % 16)]

/-- `BN_bn2hex` on a non-negative BIGNUM: `"0"` for zero, otherwise two
uppercase hex digits per octet of the big-endian representation, without
leading zero octets. -/
def bn_bn2hex (n : Nat) : String :=
  if n = 0 then "0" else ⟨(bn_bytes n).flatMap byteHex⟩

/-- Numeric value of a hexadecimal digit character. -/
def hexVal (c : Char) : Nat :=
  if c.toNat ≤ 57 then c.toNat - 48 else c.toNat - 55

/-- Value denoted by a hexadecimal string (used to state that the stored
sequence-number string preserves the decoded value). -/
def hexToNat (s : String) : Nat :=
  s.data.foldl (fun a c => a * 16 + hexVal c) 0

/-- Modelled from the spec: `cms_econtent_version` lives in `cms.c`, which
is not among the provided sources.  Per §4.1 it decodes the optional
version field to a version tag, or fails; we model it as reading a
non-negative integer from the field.  (Its exact behaviour is irrelevant
to the theorems below: every outcome is rejected by the caller.) -/
def cms_econtent_version (t : ASN1) : Option Int :=
  match t with
  | .int v => if 0 ≤ v then some v else none
  | _ => none

/-- Result of `mft_parse_econtent`: `< 0` failure, `0` stale, `> 0`
success, together with the fields it stores into `p->res`.  In the stale
case the sequence number has already been stored (the file list is never
reached); in the success case the file list has been stored too. -/
inductive EcoResult where
  | fail
  | stale (seqnum : String)
  | ok (seqnum : String) (files : List MftFile)
  deriving Repr, DecidableEq

/-- The body of `mft_parse_econtent` after the element-count check, on the
five mandatory fields (mft.c:301-397): manifestNumber (INTEGER, non-negative,
at most 20 octets, stored as `BN_bn2hex`), thisUpdate and nextUpdate
(GENERALIZEDTIME, classified by `check_validity`; 0 returns stale, -1
fails), fileHashAlg (OBJECT, must be `NID_sha256`), fileList (SEQUENCE,
parsed by `mft_parse_flist`). -/
def mft_parse_econtent5 (sn t1 t2 alg fl : ASN1) (now : Int) : EcoResult :=
  match sn with
  | .int v =>
    if v < 0 then .fail
    else if 20 < bn_num_bytes v.toNat then .fail
    else
      let seqnum := bn_bn2hex v.toNat
      match t1 with
      | .gtime tf =>
        match t2 with
        | .gtime tu =>
          let c := check_validity tf tu now
          if c = 0 then .stale seqnum
          else if c ≠ 1 then .fail
          else
            match alg with
            | .oid nid =>
              if nid ≠ NID_sha256 then .fail
              else
                match fl with
                | .seqOf l =>
                  match mft_parse_flist l with
                  | none => .fail
                  | some files => .ok seqnum files
                | _ => .fail
            | _ => .fail
        | _ => .fail
      | _ => .fail
  | _ => .fail

/-- `mft_parse_econtent` (mft.c:256-402): the outer sequence must have 5
or 6 elements.  With 6 elements the leading optional version field is
parsed and then rejected in every case of the switch (`case 0` and
`default` both fail, as does a version-decode failure). -/
def mft_parse_econtent (elems : List ASN1) (now : Int) : EcoResult :=
  match elems with
  | [sn, t1, t2, alg, fl] => mft_parse_econtent5 sn t1 t2 alg fl now
  | [ver, _, _, _, _, _] =>
    match cms_econtent_version ver with
    | none => .fail
    | some 0 => .fail
    | some _ => .fail
  | _ => .fail

/-- `mft_parse` (mft.c:411-481).  The CMS envelope unwrapping
(`cms_parse_validate`) and the certificate attribute extraction
(`x509_get_aia`/`aki`/`ski`) are external collaborators; their results are
inputs here (`none` = failure/absent).  On a stale classification the
result is kept but marked stale with every file entry stripped
(mft.c:453-467); on econtent failure nothing is returned. -/
def mft_parse (fn : Bytes) (aia aki ski : Option Bytes)
    (cms : Option (List ASN1)) (now : Int) : Option Manifest :=
  match cms with
  | none => none
  | some elems =>
    match aia, aki, ski with
    | some aia, some aki, some ski =>
      match mft_parse_econtent elems now with
      | .fail => none
      | .stale sq =>
        some { stale := true, file := fn, files := [], seqnum := some sq,
               aia := aia, aki := aki, ski := ski }
      | .ok sq files =>
        some { stale := false, file := fn, files := files, seqnum := some sq,
               aia := aia, aki := aki, ski := ski }
    | _, _, _ => none

/-- The directory prefix of a path: the characters before the last `/`
(byte 47), as `mft_check` builds `"%.*s"` with `strrchr(fn, '/') - fn`
characters of `fn`. -/
def dirName : Bytes → Bytes
  | [] => []
  | b :: rest =>
    if 47 ∈ rest then b :: dirName rest
    else if b = 47 then []
    else b :: dirName rest

/-- The sibling path `mft_check` resolves for one entry:
`"%.*s/%s"` — the manifest's directory, a `/`, then the entry name. -/
def siblingPath (fn file : Bytes) : Bytes := dirName fn ++ [47] ++ file

/-- `mft_check` (mft.c:487-512) with its warning stream made explicit:
walks every entry, recording a warning naming the entry's file on each
digest mismatch and clearing the result flag, never aborting early.
`valid_filehash` is the external filesystem digest primitive.  Returns
(warnings emitted, final `rc`). -/
def mft_check_run (valid_filehash : Bytes → Bytes → Bool)
    (fn : Bytes) (p : Manifest) : List Bytes × Bool :=
  p.files.foldl
    (fun acc m =>
      if valid_filehash (siblingPath fn m.file) m.hash then acc
      else (acc.1 ++ [m.file], false))
    ([], true)

/-- The return value of `mft_check`: non-zero (true) on success. -/
def mft_check (valid_filehash : Bytes → Bytes → Bool)
    (fn : Bytes) (p : Manifest) : Bool :=
  (mft_check_run valid_filehash fn p).2

/-- Little-endian byte encoding of a value of `k` bytes, the raw memory
image `io_simple_buffer` copies for an integer field. -/
def encLE : Nat → Nat → Bytes
  | 0, _ => []
  | k + 1, n => n % 256 :: encLE k (n / 256)

/-- The value stored little-endian in a byte string. -/
def leVal (l : Bytes) : Nat := l.foldr (fun b a => b + 256 * a) 0

/-- Consume exactly `k` bytes from the stream, failing on a short read
(the codec treats a short stream as a fault; we model it as `none`). -/
def readBytes (k : Nat) (l : Bytes) : Option (Bytes × Bytes) :=
  if k ≤ l.length then some (l.take k, l.drop k) else none

/-- Modelled from the spec: `io_str_buffer` lives in `io.c`, which is not
among the provided sources.  Per §6 a string travels length-prefixed: a
size field (8-byte size_t, little-endian) followed by the bytes. -/
def io_str_buffer (s : Bytes) : Bytes := encLE 8 s.length ++ s

/-- Modelled from the spec: `io_str_read` (`io.c`, not provided) reads the
size field and then that many bytes. -/
def io_str_read (l : Bytes) : Option (Bytes × Bytes) :=
  match readBytes 8 l with
  | none => none
  | some (sz, rest) => readBytes (leVal sz) rest

/-- `mft_buffer` (mft.c:543-560): serialise a Manifest — the stale flag as
a raw 4-byte int, the source path, the entry count as a raw 8-byte size_t,
each entry's filename and 32-byte hash in order, then AIA, AKI, SKI.
(The sequence number is not serialised.) -/
def mft_buffer (p : Manifest) : Bytes :=
  encLE 4 (if p.stale then 1 else 0)
  ++ io_str_buffer p.file
  ++ encLE 8 p.files.length
  ++ (p.files.flatMap (fun f => io_str_buffer f.file ++ f.hash))
  ++ io_str_buffer p.aia
  ++ io_str_buffer p.aki
  ++ io_str_buffer p.ski

/-- The entry-reading loop of `mft_read` (mft.c:583-586): read `k`
(filename, 32-byte hash) pairs. -/
def mft_read_files : Nat → Bytes → Option (List MftFile × Bytes)
  | 0, l => some ([], l)
  | k + 1, l =>
    match io_str_read l with
    | none => none
    | some (f, l) =>
      match readBytes 32 l with
      | none => none
      | some (h, l) =>
        match mft_read_files k l with
        | none => none
        | some (fs, l) => some (⟨f, h⟩ :: fs, l)

/-- `mft_read` (mft.c:566-594): deserialise a Manifest from the stream, in
the same field order as `mft_buffer`.  The structure is `calloc`ed, so the
sequence number (never transferred) stays unset. -/
def mft_read (l : Bytes) : Option (Manifest × Bytes) :=
  match readBytes 4 l with
  | none => none
  | some (st, l) =>
    match io_str_read l with
    | none => none
    | some (file, l) =>
      match readBytes 8 l with
      | none => none
      | some (szb, l) =>
        match mft_read_files (leVal szb) l with
        | none => none
        | some (files, l) =>
          match io_str_read l with
          | none => none
          | some (aia, l) =>
            match io_str_read l with
            | none => none
            | some (aki, l) =>
              match io_str_read l with
              | none => none
              | some (ski, l) =>
                some ({ stale := leVal st != 0, file := file, files := files,
                        seqnum := none, aia := aia, aki := aki, ski := ski }, l)

/-! ### Helper lemmas -/

/-- The digest-verification loop with an arbitrary starting accumulator:
warnings accumulate one entry name per mismatch, and the flag is the
conjunction of the incoming flag with every entry matching. -/
theorem mft_check_loop (vfh : Bytes → Bytes → Bool) (fn : Bytes)
    (l : List MftFile) (w : List Bytes) (b : Bool) :
    l.foldl
      (fun acc m =>
        if vfh (siblingPath fn m.file) m.hash then acc
        else (acc.1 ++ [m.file], false))
      (w, b)
    = (w ++ (l.filter (fun m => !vfh (siblingPath fn m.file) m.hash)).map MftFile.file,
       b && l.all (fun m => vfh (siblingPath fn m.file) m.hash)) := by
  induction l generalizing w b with
  | nil => simp
  | cons m rest ih =>
    by_cases h : vfh (siblingPath fn m.file) m.hash
    · simp [h, ih]
    · simp [h, ih, List.append_assoc]

/-- A byte string without NUL bytes is its own C string. -/
theorem cstr_eq_self {l : Bytes} (h : 0 ∉ l) : cstr l = l := by
  induction l with
  | nil => rfl
  | cons b rest ih =>
    simp only [List.mem_cons, not_or] at h
    simp only [cstr, List.takeWhile_cons]
    rw [if_pos (by simpa using Ne.symm h.1)]
    simpa [cstr] using ih h.2

/-- A successfully parsed FileAndHash carries a 32-byte hash. -/
theorem mft_parse_filehash_hash_len {elems : List ASN1} {fe : MftFile}
    (h : mft_parse_filehash elems = some fe) : fe.hash.length = 32 := by
  unfold mft_parse_filehash at h
  iterate 8 (all_goals try split at h)
  all_goals simp_all
  rcases h with ⟨-, -, rfl⟩
  simp_all

/-- Every member of a successfully parsed file list carries a 32-byte
hash. -/
theorem mft_parse_flist_hash_len {elems : List ASN1} {files : List MftFile}
    (h : mft_parse_flist elems = some files) :
    ∀ fe ∈ files, fe.hash.length = 32 := by
  induction elems generalizing files with
  | nil =>
    unfold mft_parse_flist at h
    cases h
    simp
  | cons t rest ih =>
    unfold mft_parse_flist at h
    split at h
    · split at h
      · exact absurd h (by simp)
      · rename_i fent hfent
        rcases Option.map_eq_some'.mp h with ⟨fs, hfs, rfl⟩
        intro fe hfe
        rcases List.mem_cons.mp hfe with rfl | hmem
        · exact mft_parse_filehash_hash_len hfent
        · exact ih hfs fe hmem
    · exact absurd h (by simp)

/-- If `mft_parse_econtent5` succeeds, its file list came from
`mft_parse_flist`. -/
theorem mft_parse_econtent5_ok_files {sn t1 t2 alg fl : ASN1} {now : Int}
    {sq : String} {files : List MftFile}
    (h : mft_parse_econtent5 sn t1 t2 alg fl now = .ok sq files) :
    ∃ l, mft_parse_flist l = some files := by
  unfold mft_parse_econtent5 at h
  iterate 14 (all_goals try split at h)
  all_goals try simp_all
  iterate 4 (all_goals try split at h)
  all_goals simp_all
  all_goals exact ⟨_, by assumption⟩

/-- If `mft_parse_econtent` succeeds, its file list came from
`mft_parse_flist`. -/
theorem mft_parse_econtent_ok_files {elems : List ASN1} {now : Int}
    {sq : String} {files : List MftFile}
    (h : mft_parse_econtent elems now = .ok sq files) :
    ∃ l, mft_parse_flist l = some files := by
  unfold mft_parse_econtent at h
  split at h
  · exact mft_parse_econtent5_ok_files h
  · split at h <;> simp_all
  · simp_all

/-- Hex digit characters decode back to their value. -/
theorem hexVal_hexDig : ∀ k < 16, hexVal (hexDig k) = k := by decide

/-- Folding the hex-digit pair of one octet into an accumulator. -/
theorem foldl_byteHex (b : Nat) (hb : b < 256) (a : Nat) :
    List.foldl (fun a c => a * 16 + hexVal c) a (byteHex b) = a * 256 + b := by
  have h1 : b / 16 < 16 := by omega
  have h2 : b % 16 < 16 := by omega
  simp [byteHex, hexVal_hexDig _ h1, hexVal_hexDig _ h2]
  omega

/-- Folding the whole hex expansion of `n` recovers `n` (shifted past the
accumulator). -/
theorem foldl_hex_bn_bytes (n : Nat) : ∀ a : Nat,
    List.foldl (fun a c => a * 16 + hexVal c) a ((bn_bytes n).flatMap byteHex)
      = a * 256 ^ bn_num_bytes n + n := by
  induction n using Nat.strong_induction_on with
  | _ n ih =>
    cases n with
    | zero => intro a; simp [bn_bytes, bn_num_bytes, bn_bytesAux]
    | succ m =>
      intro a
      have hd : (m + 1) / 256 < m + 1 :=
        Nat.div_lt_self (Nat.succ_pos m) (by norm_num)
      rw [bn_bytes_succ, List.flatMap_append, List.foldl_append, ih _ hd]
      simp only [List.flatMap_cons, List.flatMap_nil, List.append_nil]
      rw [foldl_byteHex _ (Nat.mod_lt _ (by norm_num))]
      rw [bn_num_bytes_succ, pow_succ, ← mul_assoc]
      have hdm : 256 * ((m + 1) / 256) + (m + 1) % 256 = m + 1 :=
        Nat.div_add_mod _ _
      generalize a * 256 ^ bn_num_bytes ((m + 1) / 256) = Y
      omega

/-- The canonical hexadecimal string `BN_bn2hex` stores preserves the
value: decoding it recovers the number. -/
theorem hexToNat_bn2hex (n : Nat) : hexToNat (bn_bn2hex n) = n := by
  cases n with
  | zero => decide
  | succ m =>
    unfold bn_bn2hex
    rw [if_neg (by omega)]
    show List.foldl _ 0 ((bn_bytes (m + 1)).flatMap byteHex) = m + 1
    rw [foldl_hex_bn_bytes (m + 1) 0]
    simp

/-- `mft_parse_econtent5` on a well-formed header whose window has
expired: the classification is stale, with the sequence number already
stored; the digest-algorithm and file-list positions are never
inspected. -/
theorem mft_parse_econtent5_stale (v f u now : Int) (e4 e5 : ASN1)
    (hv : 0 ≤ v) (hb : bn_num_bytes v.toNat ≤ 20)
    (h1 : f ≤ u) (h2 : f ≤ now) (h3 : u < now) :
    mft_parse_econtent5 (.int v) (.gtime (some f)) (.gtime (some u)) e4 e5 now
      = .stale (bn_bn2hex v.toNat) := by
  have hc : check_validity (some f) (some u) now = 0 := by
    simp only [check_validity]
    rw [if_neg (by omega), if_neg (by omega), if_pos h3]
  simp only [mft_parse_econtent5]
  rw [if_neg (by omega), if_neg (by omega), hc]
  simp

/-- `mft_parse_econtent5` on a fully well-formed manifest with a live
window: success, with the stored hex sequence number and parsed file
list. -/
theorem mft_parse_econtent5_valid (v f u now : Int) (l : List ASN1)
    (files : List MftFile) (hv : 0 ≤ v) (hb : bn_num_bytes v.toNat ≤ 20)
    (h1 : f ≤ u) (h2 : f ≤ now) (h3 : now ≤ u)
    (hfl : mft_parse_flist l = some files) :
    mft_parse_econtent5 (.int v) (.gtime (some f)) (.gtime (some u))
        (.oid NID_sha256) (.seqOf l) now = .ok (bn_bn2hex v.toNat) files := by
  have hc : check_validity (some f) (some u) now = 1 := by
    simp only [check_validity]
    rw [if_neg (by omega), if_neg (by omega), if_neg (by omega)]
  simp only [mft_parse_econtent5]
  rw [if_neg (by omega), if_neg (by omega), hc, hfl]
  simp

/-- `mft_parse` on a well-formed 5-element manifest with an expired
window, arbitrary certificate attributes present: the stale result, with
all file references stripped. -/
theorem mft_parse_stale (fn aia aki ski : Bytes) (v f u now : Int)
    (e4 e5 : ASN1) (hv : 0 ≤ v) (hb : bn_num_bytes v.toNat ≤ 20)
    (h1 : f ≤ u) (h2 : f ≤ now) (h3 : u < now) :
    mft_parse fn (some aia) (some aki) (some ski)
      (some [.int v, .gtime (some f), .gtime (some u), e4, e5]) now
    = some { stale := true, file := fn, files := [],
             seqnum := some (bn_bn2hex v.toNat),
             aia := aia, aki := aki, ski := ski } := by
  have he : mft_parse_econtent
      [.int v, .gtime (some f), .gtime (some u), e4, e5] now
      = .stale (bn_bn2hex v.toNat) :=
    mft_parse_econtent5_stale v f u now e4 e5 hv hb h1 h2 h3
  simp only [mft_parse]
  rw [he]

/-- `encLE` always writes exactly `k` bytes. -/
theorem encLE_length (k : Nat) : ∀ n, (encLE k n).length = k := by
  induction k with
  | zero => intro n; rfl
  | succ j ih => intro n; simp [encLE, ih]

/-- Reading back a `k`-byte little-endian image recovers the value
modulo `256 ^ k`. -/
theorem leVal_encLE (k : Nat) : ∀ n, leVal (encLE k n) = n % 256 ^ k := by
  induction k with
  | zero => intro n; simp [encLE, leVal, Nat.mod_one]
  | succ j ih =>
    intro n
    show n % 256 + 256 * leVal (encLE j (n / 256)) = n % 256 ^ (j + 1)
    rw [ih (n / 256)]
    rw [pow_succ']
    rw [Nat.mod_mul]

/-- `readBytes` consumes exactly the prefix it was asked for. -/
theorem readBytes_append (k : Nat) (a : Bytes) (h : a.length = k) :
    ∀ r, readBytes k (a ++ r) = some (a, r) := by
  intro r
  subst h
  unfold readBytes
  rw [if_pos (by simp)]
  rw [List.take_left, List.drop_left]

/-- A length-prefixed string reads back exactly, leaving the rest of the
stream (for strings shorter than the 8-byte size field can carry). -/
theorem io_str_roundtrip (s : Bytes) (h : s.length < 2 ^ 64) :
    ∀ r, io_str_read (io_str_buffer s ++ r) = some (s, r) := by
  intro r
  unfold io_str_buffer io_str_read
  rw [List.append_assoc]
  rw [readBytes_append 8 _ (encLE_length 8 _)]
  show readBytes (leVal (encLE 8 s.length)) (s ++ r) = some (s, r)
  rw [leVal_encLE]
  rw [Nat.mod_eq_of_lt (by norm_num; omega)]
  exact readBytes_append _ _ rfl r

/-- The entry loop of `mft_read` recovers the entry list `mft_buffer`
wrote, leaving the rest of the stream. -/
theorem mft_read_files_roundtrip (fs : List MftFile)
    (hf : ∀ f ∈ fs, f.file.length < 2 ^ 64 ∧ f.hash.length = 32) :
    ∀ r : Bytes,
    mft_read_files fs.length
        (fs.flatMap (fun f => io_str_buffer f.file ++ f.hash) ++ r)
      = some (fs, r) := by
  induction fs with
  | nil => intro r; rfl
  | cons f rest ih =>
    intro r
    obtain ⟨hfile, hhash⟩ := hf f (List.mem_cons_self f rest)
    show mft_read_files (rest.length + 1) _ = _
    rw [List.flatMap_cons, List.append_assoc, List.append_assoc]
    unfold mft_read_files
    simp only [io_str_roundtrip f.file hfile, readBytes_append 32 f.hash hhash,
      ih (fun g hg => hf g (List.mem_cons_of_mem f hg))]

/-! ### Claim theorems -/

/-- C2: `check_validity` returns Invalid (-1) exactly when either time
fails to parse into calendar form, or valid-until precedes valid-from, or
valid-from is later than the current time; returns Stale (0) exactly when
it is not Invalid and valid-until precedes the current time; and returns
Valid (1) in every other case. -/
theorem check_validity_cases (tFrom tUntil : Option Int) (now : Int) :
    (check_validity tFrom tUntil now = -1 ↔
      (tFrom = none ∨ tUntil = none ∨
        ∃ f u, tFrom = some f ∧ tUntil = some u ∧ (u < f ∨ now < f)))
    ∧ (check_validity tFrom tUntil now = 0 ↔
      ∃ f u, tFrom = some f ∧ tUntil = some u ∧ f ≤ u ∧ f ≤ now ∧ u < now)
    ∧ (check_validity tFrom tUntil now = 1 ↔
      ∃ f u, tFrom = some f ∧ tUntil = some u ∧ f ≤ u ∧ f ≤ now ∧ now ≤ u) := by
  rcases tFrom with _ | f <;> rcases tUntil with _ | u <;>
    simp only [check_validity] <;> try simp
  refine ⟨?_, ?_, ?_⟩ <;> (split_ifs <;> simp <;> omega)

/-- C7: when the optional version field is present (6 top-level elements
instead of 5), `mft_parse_econtent` fails for every version value the
field can carry — a version-decode failure, the explicit default 0 and
every other value are all rejected. -/
theorem mft_version_always_rejected (ver a b c d e : ASN1) (now : Int) :
    mft_parse_econtent [ver, a, b, c, d, e] now = .fail := by
  show (match cms_econtent_version ver with
    | none => EcoResult.fail
    | some 0 => EcoResult.fail
    | some _ => EcoResult.fail) = EcoResult.fail
  split <;> rfl

/-- C8: the Digest Verifier walks every file entry: each mismatching entry
is reported individually (the warning list is exactly the mismatching
entries, in manifest order, so a mismatch never stops checking of later
entries), and `mft_check` succeeds iff every entry's recomputed digest
matched its recorded value. -/
theorem mft_check_reports_all (vfh : Bytes → Bytes → Bool)
    (fn : Bytes) (p : Manifest) :
    (mft_check_run vfh fn p).1
      = (p.files.filter (fun m => !vfh (siblingPath fn m.file) m.hash)).map
          MftFile.file
    ∧ (mft_check vfh fn p = true ↔
      ∀ m ∈ p.files, vfh (siblingPath fn m.file) m.hash = true) := by
  unfold mft_check mft_check_run
  rw [mft_check_loop]
  simp [List.all_eq_true]

/-- C10: on a Manifest with no file entries — in particular every stale
manifest — `mft_check` succeeds vacuously: no digest comparison happens
(the result does not depend on the filesystem oracle) and no per-entry
warning is emitted. -/
theorem mft_check_empty_vacuous (vfh : Bytes → Bytes → Bool)
    (fn : Bytes) (p : Manifest) (h : p.files = []) :
    mft_check_run vfh fn p = ([], true) := by
  unfold mft_check_run
  rw [h]
  rfl

/-- C1: the serialization codec round-trips: decoding the byte stream
`mft_buffer` produces recovers every serialised field of the Manifest —
stale flag, source path, entry count, every entry's filename and 32-byte
digest in order, AIA, AKI and SKI — including when the entry list is
empty.  (The sequence number is not part of the wire format; the decoded
structure leaves it unset.) -/
theorem mft_roundtrip (p : Manifest)
    (h1 : p.file.length < 2 ^ 64)
    (h2 : p.files.length < 2 ^ 64)
    (h3 : ∀ f ∈ p.files, f.file.length < 2 ^ 64 ∧ f.hash.length = 32)
    (h4 : p.aia.length < 2 ^ 64) (h5 : p.aki.length < 2 ^ 64)
    (h6 : p.ski.length < 2 ^ 64) :
    mft_read (mft_buffer p) = some ({ p with seqnum := none }, []) := by
  obtain ⟨st, file, files, sq, aia, aki, ski⟩ := p
  simp only at h1 h2 h3 h4 h5 h6
  have hst : (leVal (encLE 4 (if st then 1 else 0)) != 0) = st := by
    cases st <;> rfl
  have hsz : leVal (encLE 8 files.length) = files.length := by
    rw [leVal_encLE]
    have h8 : (256 : Nat) ^ 8 = 2 ^ 64 := by norm_num
    exact Nat.mod_eq_of_lt (by omega)
  have hski : io_str_read (io_str_buffer ski) = some (ski, []) := by
    have := io_str_roundtrip ski h6 []
    rwa [List.append_nil] at this
  unfold mft_buffer mft_read
  simp only [List.append_assoc]
  simp only [readBytes_append 4 (encLE 4 (if st then 1 else 0))
      (encLE_length 4 _),
    io_str_roundtrip file h1,
    readBytes_append 8 (encLE 8 files.length) (encLE_length 8 _),
    hsz, mft_read_files_roundtrip files h3,
    io_str_roundtrip aia h4, io_str_roundtrip aki h5, hski, hst]

/-- Witness for C1 at a concrete Manifest with one entry (and, for the
empty-list case, the hypotheses hold just as well). -/
theorem mft_roundtrip_witness :
    mft_read (mft_buffer
      ⟨true, [97, 47, 98], [⟨[99, 99, 99, 99, 99], List.replicate 32 1⟩],
       some "05", [4], [5], [6]⟩)
    = some (⟨true, [97, 47, 98], [⟨[99, 99, 99, 99, 99], List.replicate 32 1⟩],
       none, [4], [5], [6]⟩, []) :=
  mft_roundtrip
    ⟨true, [97, 47, 98], [⟨[99, 99, 99, 99, 99], List.replicate 32 1⟩],
     some "05", [4], [5], [6]⟩
    (by decide) (by decide) (by decide) (by decide) (by decide) (by decide)

/-- C3: in every Manifest `mft_parse` returns, a true stale flag comes
with an empty file-entry list; and a well-formed manifest whose
valid-until time is in the past decodes successfully with `stale = true`
and no file entries, regardless of the entries in the raw encoding. -/
theorem mft_stale_implies_empty :
    (∀ (fn : Bytes) (aia aki ski : Option Bytes) (cms : Option (List ASN1))
        (now : Int) (m : Manifest),
      mft_parse fn aia aki ski cms now = some m → m.stale = true →
      m.files = [])
    ∧ (∀ (fn aia aki ski : Bytes) (v f u now : Int) (fl : List ASN1),
      0 ≤ v → bn_num_bytes v.toNat ≤ 20 → f ≤ u → f ≤ now → u < now →
      mft_parse fn (some aia) (some aki) (some ski)
        (some [.int v, .gtime (some f), .gtime (some u), .oid NID_sha256,
               .seqOf fl]) now
      = some { stale := true, file := fn, files := [],
               seqnum := some (bn_bn2hex v.toNat),
               aia := aia, aki := aki, ski := ski }) := by
  constructor
  · intro fn aia aki ski cms now m h hstale
    unfold mft_parse at h
    split at h
    · exact absurd h (by simp)
    · split at h
      · split at h
        · exact absurd h (by simp)
        · cases h; rfl
        · cases h; simp at hstale
      · exact absurd h (by simp)
  · intro fn aia aki ski v f u now fl hv hb h1 h2 h3
    exact mft_parse_stale fn aia aki ski v f u now _ _ hv hb h1 h2 h3

/-- Witness for C3: a stale decode at concrete inputs — two entries in
the raw encoding, valid-until 20 before now 25 — yields stale with no
entries. -/
theorem mft_stale_implies_empty_witness :
    ({ stale := true, file := [109], files := [], seqnum := some "05",
       aia := [1], aki := [2], ski := [3] } : Manifest).files = []
    ∧ mft_parse [109] (some [1]) (some [2]) (some [3])
        (some [.int 5, .gtime (some 10), .gtime (some 20), .oid 672,
          .seqOf [.seqOf [.ia5 [97, 97, 97, 97, 97],
                          .bitstr (List.replicate 32 7)],
                  .seqOf [.ia5 [98, 98, 98, 98, 98],
                          .bitstr (List.replicate 32 8)]]]) 25
      = some { stale := true, file := [109], files := [],
               seqnum := some "05", aia := [1], aki := [2], ski := [3] } :=
  ⟨mft_stale_implies_empty.1 [109] (some [1]) (some [2]) (some [3])
      (some [.int 5, .gtime (some 10), .gtime (some 20), .oid 672,
        .seqOf [.seqOf [.ia5 [97, 97, 97, 97, 97],
                        .bitstr (List.replicate 32 7)],
                .seqOf [.ia5 [98, 98, 98, 98, 98],
                        .bitstr (List.replicate 32 8)]]]) 25
      _ (by decide) (by decide),
   mft_stale_implies_empty.2 [109] [1] [2] [3] 5 10 20 25
      [.seqOf [.ia5 [97, 97, 97, 97, 97], .bitstr (List.replicate 32 7)],
       .seqOf [.ia5 [98, 98, 98, 98, 98], .bitstr (List.replicate 32 8)]]
      (by decide) (by decide) (by decide) (by decide) (by decide)⟩

/-- C4: decoding fails when the manifest sequence number is negative or
needs more than 20 octets, and succeeds for a non-negative number of
exactly 20 octets, storing it canonically as a hexadecimal string that
preserves the value. -/
theorem mft_seqnum_rules :
    (∀ (v : Int) (e2 e3 e4 e5 : ASN1) (now : Int),
      v < 0 ∨ 20 < bn_num_bytes v.toNat →
      mft_parse_econtent [.int v, e2, e3, e4, e5] now = .fail)
    ∧ (∀ (v f u now : Int) (l : List ASN1) (files : List MftFile),
      0 ≤ v → bn_num_bytes v.toNat = 20 →
      f ≤ u → f ≤ now → now ≤ u → mft_parse_flist l = some files →
      mft_parse_econtent [.int v, .gtime (some f), .gtime (some u),
          .oid NID_sha256, .seqOf l] now
        = .ok (bn_bn2hex v.toNat) files
      ∧ hexToNat (bn_bn2hex v.toNat) = v.toNat) := by
  constructor
  · intro v e2 e3 e4 e5 now hbad
    show mft_parse_econtent5 (.int v) e2 e3 e4 e5 now = .fail
    simp only [mft_parse_econtent5]
    rcases hbad with hneg | hbig
    · rw [if_pos hneg]
    · by_cases hneg : v < 0
      · rw [if_pos hneg]
      · rw [if_neg hneg, if_pos hbig]
  · intro v f u now l files hv hb h1 h2 h3 hfl
    exact ⟨mft_parse_econtent5_valid v f u now l files hv (by omega)
        h1 h2 h3 hfl,
      hexToNat_bn2hex v.toNat⟩

/-- Witness for C4: a negative sequence number fails; `2^152`, which is
exactly 20 octets, succeeds, and its hex string decodes back to it. -/
theorem mft_seqnum_rules_witness :
    mft_parse_econtent [.int (-1), .gtime (some 10), .gtime (some 20),
        .oid 672, .seqOf []] 15 = .fail
    ∧ mft_parse_econtent [.int (5708990770823839524233143877797980545530986496), .gtime (some 10), .gtime (some 20),
        .oid 672, .seqOf []] 15
      = .ok (bn_bn2hex ((5708990770823839524233143877797980545530986496 : Int)).toNat) []
    ∧ hexToNat (bn_bn2hex ((5708990770823839524233143877797980545530986496 : Int)).toNat) = ((5708990770823839524233143877797980545530986496 : Int)).toNat :=
  ⟨mft_seqnum_rules.1 (-1) (.gtime (some 10)) (.gtime (some 20))
      (.oid 672) (.seqOf []) 15 (Or.inl (by decide)),
   (mft_seqnum_rules.2 (5708990770823839524233143877797980545530986496) 10 20 15 [] [] (by decide) (by decide)
      (by decide) (by decide) (by decide) rfl).1,
   (mft_seqnum_rules.2 (5708990770823839524233143877797980545530986496) 10 20 15 [] [] (by decide) (by decide)
      (by decide) (by decide) (by decide) rfl).2⟩

/-- C9: once the time-window check classifies the manifest as stale,
`mft_parse` returns the stale, empty result without validating anything
after the two time fields — the fields at the digest-algorithm and
file-list positions are arbitrary (they may fail to name SHA-256 or be
malformed). -/
theorem mft_stale_short_circuit (fn aia aki ski : Bytes) (v f u now : Int)
    (e4 e5 : ASN1) (hv : 0 ≤ v) (hb : bn_num_bytes v.toNat ≤ 20)
    (h1 : f ≤ u) (h2 : f ≤ now) (h3 : u < now) :
    mft_parse fn (some aia) (some aki) (some ski)
      (some [.int v, .gtime (some f), .gtime (some u), e4, e5]) now
    = some { stale := true, file := fn, files := [],
             seqnum := some (bn_bn2hex v.toNat),
             aia := aia, aki := aki, ski := ski } :=
  mft_parse_stale fn aia aki ski v f u now e4 e5 hv hb h1 h2 h3

/-- Witness for C9: valid-until 20 is before now 25, the hash-algorithm
position holds a non-SHA-256 object identifier and the file-list position
a malformed (non-sequence) value, yet decoding succeeds as stale. -/
theorem mft_stale_short_circuit_witness :
    mft_parse [109] (some [1]) (some [2]) (some [3])
      (some [.int 5, .gtime (some 10), .gtime (some 20), .oid 0,
             .ia5 []]) 25
    = some { stale := true, file := [109], files := [],
             seqnum := some "05", aia := [1], aki := [2], ski := [3] } :=
  mft_stale_short_circuit [109] [1] [2] [3] 5 10 20 25 (.oid 0) (.ia5 [])
    (by decide) (by decide) (by decide) (by decide) (by decide)

/-- C5: a file entry is rejected when its name contains the path
separator `/` (byte 47) or has length at most 4, and the name is accepted
(the entry parses, given a valid 32-byte digest) for any name of 5 or more
characters with no path separator. -/
theorem mft_filehash_name_rules :
    (∀ (name : Bytes) (h : ASN1), 0 ∉ name →
      47 ∈ name ∨ name.length ≤ 4 →
      mft_parse_filehash [.ia5 name, h] = none)
    ∧ (∀ (name hb : Bytes), 0 ∉ name → 47 ∉ name → 5 ≤ name.length →
      hb.length = 32 →
      mft_parse_filehash [.ia5 name, .bitstr hb] = some ⟨name, hb⟩) := by
  constructor
  · intro name h h0 hbad
    simp only [mft_parse_filehash]
    rw [cstr_eq_self h0]
    rcases hbad with h47 | hlen
    · simp [h47]
    · by_cases h47 : 47 ∈ name <;> simp [h47, hlen]
  · intro name hb h0 h47 hlen h32
    simp only [mft_parse_filehash]
    rw [cstr_eq_self h0]
    simp [h47, h32]
    omega

/-- Witness for C5: the 5-byte name `aaaaa` with a 32-byte digest parses;
instantiating the rejection half at the 4-byte name `aaaa`. -/
theorem mft_filehash_name_rules_witness :
    mft_parse_filehash [.ia5 [97, 97, 97, 97], .bitstr (List.replicate 32 7)]
        = none
    ∧ mft_parse_filehash [.ia5 [97, 97, 97, 97, 97], .bitstr (List.replicate 32 7)]
        = some ⟨[97, 97, 97, 97, 97], List.replicate 32 7⟩ :=
  ⟨mft_filehash_name_rules.1 [97, 97, 97, 97] (.bitstr (List.replicate 32 7))
      (by decide) (by decide),
   mft_filehash_name_rules.2 [97, 97, 97, 97, 97] (List.replicate 32 7)
      (by decide) (by decide) (by decide) (by decide)⟩

/-- C6: a file entry whose digest field is not exactly 32 bytes is
rejected, and consequently every file entry of any successfully returned
Manifest carries a digest of exactly 32 bytes. -/
theorem mft_digest_len_rules :
    (∀ (name hb : Bytes), hb.length ≠ 32 →
      mft_parse_filehash [.ia5 name, .bitstr hb] = none)
    ∧ (∀ (fn : Bytes) (aia aki ski : Option Bytes)
        (cms : Option (List ASN1)) (now : Int) (m : Manifest),
      mft_parse fn aia aki ski cms now = some m →
      ∀ fe ∈ m.files, fe.hash.length = 32) := by
  constructor
  · intro name hb h32
    simp only [mft_parse_filehash]
    by_cases h47 : 47 ∈ cstr name
    · simp [h47]
    · by_cases hlen : (cstr name).length ≤ 4 <;> simp [h47, hlen, h32]
  · intro fn aia aki ski cms now m h fe hfe
    unfold mft_parse at h
    split at h
    · exact absurd h (by simp)
    · split at h
      · split at h
        · exact absurd h (by simp)
        · cases h; simp at hfe
        · rename_i sq files heco
          cases h
          rcases mft_parse_econtent_ok_files heco with ⟨l, hl⟩
          exact mft_parse_flist_hash_len hl fe hfe
      · exact absurd h (by simp)

/-- Witness for C6: a 31-byte digest is rejected; a parsed one-entry
manifest (entry digest 32 bytes) satisfies the invariant. -/
theorem mft_digest_len_rules_witness :
    mft_parse_filehash [.ia5 [97, 97, 97, 97, 97], .bitstr (List.replicate 31 7)]
        = none
    ∧ ∀ fe ∈ (Manifest.mk false [109] [⟨[97, 97, 97, 97, 97], List.replicate 32 7⟩]
        (some "05") [1] [2] [3]).files, fe.hash.length = 32 :=
  ⟨mft_digest_len_rules.1 [97, 97, 97, 97, 97] (List.replicate 31 7) (by decide),
   mft_digest_len_rules.2 [109] (some [1]) (some [2]) (some [3])
      (some [.int 5, .gtime (some 10), .gtime (some 20), .oid 672,
             .seqOf [.seqOf [.ia5 [97, 97, 97, 97, 97],
                             .bitstr (List.replicate 32 7)]]]) 15
      _ (by decide)⟩

/-- Witness for C10 at a concrete stale Manifest. -/
theorem mft_check_empty_vacuous_witness :
    mft_check_run (fun _ _ => false) [97, 47, 98]
      ⟨true, [97, 47, 98], [], none, [1], [2], [3]⟩ = ([], true) :=
  mft_check_empty_vacuous (fun _ _ => false) [97, 47, 98] _ rfl

end Mft
